import Mathlib

/-!
Verification of the access-control and lifecycle core of a citizen-registry
backend (Node.js/Express over MongoDB via Mongoose).

The embedding translates the JavaScript sources into pure Lean functions:

* the Mongo collections become lists of records inside explicit store
  structures (`Db` for users/roles/permissions/menus, `CitizenDb` for
  citizens and status-change logs);
* `Model.find(filter).sort(key)` becomes `List.filter` followed by a stable
  insertion sort (`sortLe`), the same function ECMAScript's stable
  `Array.prototype.sort` computes for a total preorder comparator;
* `async` JavaScript functions that can `throw` become `Except String`
  values; an `Except.error` result corresponds to a rejected promise, in
  which case no store mutation is committed;
* JavaScript string helpers (`toUpperCase`, `trim`) are re-implemented over
  the character list so that all definitions evaluate inside the kernel;
* Mongoose's `timestamps`/`_id` bookkeeping is reduced to the fields the
  services actually read (`createdAt`, `deletedAt`, numeric ids).
-/

/-! ## JavaScript string and truthiness helpers -/

/-- `String.prototype.toUpperCase` (ASCII part, which is all the code uses). -/
def toUpperStr (s : String) : String := ⟨s.data.map Char.toUpper⟩

/-- `String.prototype.trim`: drop whitespace from both ends. -/
def trimStr (s : String) : String :=
  ⟨((s.data.dropWhile Char.isWhitespace).reverse.dropWhile Char.isWhitespace).reverse⟩

/-- JavaScript truthiness of an optional string field: `undefined`/`null`
and the empty string are falsy, any other string is truthy. -/
def isTruthy : Option String → Bool
  | none => false
  | some s => !(s == "")

/-- `x?.trim() || null`: trim a nullable string, collapsing an all-blank
result back to `null`. -/
def jsTrimOrNull : Option String → Option String
  | none => none
  | some s => let t := trimStr s; if t == "" then none else some t

/-! ## Stable sort

`Array.prototype.sort` with comparator `(a, b) => key(a) - key(b)` is a
stable ascending sort; so is Mongo's `.sort({ key: 1 })` as the services use
it.  Both are modelled by a structurally recursive stable insertion sort,
which computes the same list as any stable sort for a total transitive
`le`. -/

def insertLe {α : Type} (le : α → α → Bool) (x : α) : List α → List α
  | [] => [x]
  | y :: ys => if le x y then x :: y :: ys else y :: insertLe le x ys

def sortLe {α : Type} (le : α → α → Bool) : List α → List α
  | [] => []
  | x :: xs => insertLe le x (sortLe le xs)

/-! ## Data model

Field-for-field translations of the Mongoose schemas (`Menu.model.js`,
`Role.model.js`, `Permission` usage, `User.model.js`, the citizen schema and
the status-change-log schema).  Document ids are modelled as `Nat`. -/

/-- `Menu.model.js`: a navigation menu record. -/
structure Menu where
  id : Nat
  name : String
  route : Option String
  icon : Option String
  parentId : Option Nat
  orderIndex : Int
  permissionCode : Option String
deriving Repr, DecidableEq

/-- A composed presentation node as built by `RBACService.buildMenuTree`:
`{ id, label, route, icon, orderIndex, children }`. -/
inductive MenuNode where
  | mk (id : Nat) (label : String) (route : Option String) (icon : Option String)
      (orderIndex : Int) (children : List MenuNode)
deriving Repr

def MenuNode.id : MenuNode → Nat
  | .mk i _ _ _ _ _ => i

def MenuNode.label : MenuNode → String
  | .mk _ l _ _ _ _ => l

def MenuNode.orderIndex : MenuNode → Int
  | .mk _ _ _ _ o _ => o

def MenuNode.children : MenuNode → List MenuNode
  | .mk _ _ _ _ _ cs => cs

/-- A permission record: stable `code` plus display data. -/
structure Permission where
  id : Nat
  code : String
  name : String
  description : String
deriving Repr, DecidableEq

/-- `Role.model.js`: name plus the list of referenced permission ids. -/
structure Role where
  id : Nat
  name : String
  description : String
  permissions : List Nat
deriving Repr, DecidableEq

/-- `User.model.js`.  `password` stands for the stored (hashed) credential;
`deletedAt`/`createdAt` carry the soft-delete marker and creation time. -/
structure User where
  id : Nat
  username : String
  password : String
  roleId : Nat
  role : String
  status : String
  phoneNumber : Option String
  profilePicturePath : Option String
  deletedAt : Option Int
  createdAt : Int
deriving Repr, DecidableEq

/-- The RBAC side of the store: users, roles, permissions, menus. -/
structure Db where
  users : List User
  roles : List Role
  perms : List Permission
  menus : List Menu
deriving Repr, DecidableEq

/-- The citizen schema (fields the services read). -/
structure Citizen where
  nationalId : String
  firstName : String
  middleName : Option String
  lastName : String
  gender : String
  dateOfBirth : Int
  placeOfBirth : String
  nationality : String
  status : String
  deletedAt : Option Int
  createdAt : Int
deriving Repr, DecidableEq

/-- One `StatusChangeLog` row: `{ nationalId, oldStatus, newStatus, changedBy }`. -/
structure LogRow where
  nationalId : String
  oldStatus : String
  newStatus : String
  changedBy : Nat
deriving Repr, DecidableEq

/-- The citizen side of the store: citizens plus the append-only audit log. -/
structure CitizenDb where
  citizens : List Citizen
  logs : List LogRow
deriving Repr, DecidableEq

/-! ## Permission Resolver (`rbac.service.js`) -/

/-- `User.findById(userId)`. -/
def findUser (db : Db) (userId : Nat) : Option User :=
  db.users.find? (fun u => u.id == userId)

/-- `Role.findById(roleId)`. -/
def findRole (db : Db) (roleId : Nat) : Option Role :=
  db.roles.find? (fun r => r.id == roleId)

/-- `RBACService.getUserPermissions`: load the user, populate its role and
the role's permissions, return the permission codes.  Missing user, missing
role, or any thrown error degrade to the empty list.  Mongoose's array
`populate` silently drops references that resolve to no document, which the
`filterMap` mirrors. -/
def getUserPermissions (db : Db) (userId : Nat) : List String :=
  match findUser db userId with
  | none => []
  | some u =>
    match findRole db u.roleId with
    | none => []
    | some r =>
      (r.permissions.filterMap (fun pid => db.perms.find? (fun p => p.id == pid))).map
        Permission.code

/-! ## Menu Composer (`rbac.service.js`) -/

/-- The `$or` filter of the menu query: `permissionCode` is null or a member
of the granted codes. -/
def menuMatch (granted : List String) (m : Menu) : Bool :=
  match m.permissionCode with
  | none => true
  | some c => granted.contains c

/-- `Menu.find({ $or: [...] }).sort({ orderIndex: 1 })`. -/
def fetchMenus (menus : List Menu) (granted : List String) : List Menu :=
  sortLe (fun a b => decide (a.orderIndex ≤ b.orderIndex)) (menus.filter (menuMatch granted))

/-- One presentation node of `buildMenuTree`, with its children computed
recursively: in the JS two-pass mutation, the children pushed into a node
are exactly the fetched menus whose `parentId` is that node's id, in fetch
order.  `fuel` bounds the recursion depth; `buildMenuTree` passes the menu
count, which no acyclic parent chain can exceed. -/
def toNode (menus : List Menu) : Nat → Menu → MenuNode
  | 0, m => .mk m.id m.name m.route m.icon m.orderIndex []
  | fuel + 1, m =>
    .mk m.id m.name m.route m.icon m.orderIndex
      ((menus.filter (fun c => c.parentId == some m.id)).map (toNode menus fuel))

/-- Ascending stable sort of sibling nodes by `orderIndex`. -/
def sortNodes (ns : List MenuNode) : List MenuNode :=
  sortLe (fun a b => decide (a.orderIndex ≤ b.orderIndex)) ns

/-- The final pass of `buildMenuTree` sorts only each root's direct
children. -/
def sortChildrenTop : MenuNode → MenuNode
  | .mk i l r ic o cs => .mk i l r ic o (sortNodes cs)

/-- `RBACService.buildMenuTree`: second pass pushes a menu with a null
`parentId` onto the root list, attaches a menu whose parent is present in
the map as that parent's child, and silently skips a menu whose `parentId`
points outside the map; then roots and their direct children are sorted by
`orderIndex`. -/
def buildMenuTree (menus : List Menu) : List MenuNode :=
  let rootMenus := (menus.filter (fun m => m.parentId == none)).map (toNode menus menus.length)
  (sortNodes rootMenus).map sortChildrenTop

/-- The menu-composition core of `getUserMenus`, factored over the granted
code set: the early return for an empty permission list, then fetch and
tree build. -/
def composeMenu (menus : List Menu) (granted : List String) : List MenuNode :=
  if granted.length == 0 then [] else buildMenuTree (fetchMenus menus granted)

/-- `RBACService.getUserMenus`. -/
def getUserMenus (db : Db) (userId : Nat) : List MenuNode :=
  composeMenu db.menus (getUserPermissions db userId)

/-! ## Access Guard (`auth.middleware.js` + `permission.middleware.js`)

Routes install `authenticate` before `requirePermission(...)`, so the guard
is their composition.  `authenticate` (after token decoding, which is
outside the store model) loads the user and rejects with 401 when the user
is missing, not `ACTIVE`, or soft-deleted; only then does
`requirePermission` resolve the role's permission codes. -/

inductive Decision where
  | allow
  | deny (status : Nat)
deriving Repr, DecidableEq

/-- The store-level checks of `authenticate`, in source order. -/
def authenticateUser (db : Db) (userId : Nat) : Except Nat User :=
  match findUser db userId with
  | none => .error 401
  | some u =>
    if u.status == "ACTIVE" then
      if u.deletedAt == none then .ok u else .error 401
    else .error 401

/-- `requirePermission(...permissionCodes)` applied to an authenticated
user: load the role, map its permissions to codes, allow iff any required
code is held (`permissionCodes.some(...)`). -/
def requirePermission (db : Db) (u : User) (permissionCodes : List String) : Decision :=
  match findRole db u.roleId with
  | none => .deny 403
  | some role =>
    let userPermissions :=
      (role.permissions.filterMap (fun pid => db.perms.find? (fun p => p.id == pid))).map
        Permission.code
    if permissionCodes.any (fun code => userPermissions.contains code) then .allow
    else .deny 403

/-- The composed guard for a protected route. -/
def authorize (db : Db) (userId : Nat) (permissionCodes : List String) : Decision :=
  match authenticateUser db userId with
  | .error s => .deny s
  | .ok u => requirePermission db u permissionCodes

/-! ## Citizen service (`citizen.service.js`)

`updateCitizen` is translated block by block; each `if (data.field)` guard
becomes one small function applied in source order.  A thrown JavaScript
error is an `Except.error`, and `citizen.save()` is the final store
replacement, so an error result commits nothing. -/

/-- `Citizen.findOne({ nationalId, deletedAt: null })`. -/
def findActiveCitizen (db : CitizenDb) (nationalId : String) : Option Citizen :=
  db.citizens.find? (fun c => c.nationalId == nationalId && c.deletedAt == none)

/-- Membership in the status enum shared by the citizen schema and the
status-change-log schema. -/
def validStatus (s : String) : Bool := s == "ACTIVE" || s == "DECEASED"

/-- `StatusChangeLog.create(...)`: Mongoose first validates the enum fields,
then performs the insert, which the infrastructure may fail (`writeOk`
false).  On success the row is appended. -/
def logCreate (writeOk : Bool) (logs : List LogRow) (row : LogRow) :
    Except String (List LogRow) :=
  if !(validStatus row.oldStatus && validStatus row.newStatus) then
    .error "StatusChangeLog validation failed"
  else if !writeOk then .error "StatusChangeLog write failed"
  else .ok (logs ++ [row])

/-- `citizen.save()`: write the mutated document back by its key. -/
def replaceCitizen (cs : List Citizen) (c : Citizen) : List Citizen :=
  cs.map (fun x => if x.nationalId == c.nationalId then c else x)

def applyFirstName (data : Option String) (c : Citizen) : Citizen :=
  if isTruthy data then { c with firstName := trimStr (data.getD "") } else c

/-- `if (data.middleName !== undefined) citizen.middleName = data.middleName?.trim() || null`. -/
def applyMiddleName (data : Option (Option String)) (c : Citizen) : Citizen :=
  match data with
  | none => c
  | some mv => { c with middleName := jsTrimOrNull mv }

def applyLastName (data : Option String) (c : Citizen) : Citizen :=
  if isTruthy data then { c with lastName := trimStr (data.getD "") } else c

def applyGender (data : Option String) (c : Citizen) : Except String Citizen :=
  if isTruthy data then
    if toUpperStr (data.getD "") == "MALE" || toUpperStr (data.getD "") == "FEMALE" then
      .ok { c with gender := toUpperStr (data.getD "") }
    else .error "Gender must be MALE or FEMALE"
  else .ok c

/-- The date-of-birth block; `today` and `hundredYearsAgo` are the two
clock-derived bounds the JS computes. -/
def applyDateOfBirth (today hundredYearsAgo : Int) (data : Option Int) (c : Citizen) :
    Except String Citizen :=
  match data with
  | none => .ok c
  | some d =>
    if today < d then .error "Date of birth cannot be in the future"
    else if d < hundredYearsAgo then .error "Date of birth cannot be more than 100 years ago"
    else .ok { c with dateOfBirth := d }

def applyPlaceOfBirth (data : Option String) (c : Citizen) : Citizen :=
  if isTruthy data then { c with placeOfBirth := trimStr (data.getD "") } else c

def applyNationality (data : Option String) (c : Citizen) : Citizen :=
  if isTruthy data then { c with nationality := trimStr (data.getD "") } else c

/-- The status block followed by `citizen.save()`: normalise to upper case;
when the value actually changes, create the audit row before saving, so a
failed audit write aborts the whole operation. -/
def applyStatusAndSave (logWriteOk : Bool) (db : CitizenDb) (nationalId : String)
    (data : Option String) (userId : Nat) (c : Citizen) :
    Except String (CitizenDb × Citizen) :=
  if isTruthy data then
    let oldStatus := c.status
    let newStatus := toUpperStr (data.getD "")
    let c2 := { c with status := newStatus }
    if oldStatus == newStatus then
      .ok ({ db with citizens := replaceCitizen db.citizens c2 }, c2)
    else
      match logCreate logWriteOk db.logs
          { nationalId := nationalId, oldStatus := oldStatus, newStatus := newStatus,
            changedBy := userId } with
      | .error e => .error e
      | .ok logs2 => .ok ({ citizens := replaceCitizen db.citizens c2, logs := logs2 }, c2)
  else
    .ok ({ db with citizens := replaceCitizen db.citizens c }, c)

/-- The update payload of `CitizenService.updateCitizen`; `none` is an
absent (`undefined`) field.  `middleName` distinguishes absent from null as
the JS does. -/
structure CitizenUpdate where
  firstName : Option String := none
  middleName : Option (Option String) := none
  lastName : Option String := none
  gender : Option String := none
  dateOfBirth : Option Int := none
  placeOfBirth : Option String := none
  nationality : Option String := none
  status : Option String := none
deriving Repr, DecidableEq

/-- `CitizenService.updateCitizen`. -/
def updateCitizen (logWriteOk : Bool) (today hundredYearsAgo : Int) (db : CitizenDb)
    (nationalId : String) (data : CitizenUpdate) (userId : Nat) :
    Except String (CitizenDb × Citizen) :=
  match findActiveCitizen db nationalId with
  | none => .error "Citizen not found"
  | some c0 =>
    let c1 := applyFirstName data.firstName c0
    let c2 := applyMiddleName data.middleName c1
    let c3 := applyLastName data.lastName c2
    match applyGender data.gender c3 with
    | .error e => .error e
    | .ok c4 =>
      match applyDateOfBirth today hundredYearsAgo data.dateOfBirth c4 with
      | .error e => .error e
      | .ok c5 =>
        let c6 := applyPlaceOfBirth data.placeOfBirth c5
        let c7 := applyNationality data.nationality c6
        applyStatusAndSave logWriteOk db nationalId data.status userId c7

/-- `CitizenService.deleteCitizen`: soft delete, looked up among active
citizens only. -/
def deleteCitizen (now : Int) (db : CitizenDb) (nationalId : String) :
    Except String CitizenDb :=
  match findActiveCitizen db nationalId with
  | none => .error "Citizen not found"
  | some c =>
    .ok { db with citizens := replaceCitizen db.citizens { c with deletedAt := some now } }

/-- `CitizenService.restoreCitizen`: `findOne({ nationalId })` with no
lifecycle filter, then unconditionally clear `deletedAt`. -/
def restoreCitizen (db : CitizenDb) (nationalId : String) :
    Except String (CitizenDb × Citizen) :=
  match db.citizens.find? (fun c => c.nationalId == nationalId) with
  | none => .error "Citizen not found"
  | some c =>
    let c2 := { c with deletedAt := none }
    .ok ({ db with citizens := replaceCitizen db.citizens c2 }, c2)

/-! ## Listings and pagination -/

/-- Page metadata as both services return it. -/
structure Paginated (α : Type) where
  data : List α
  page : Nat
  limit : Nat
  total : Nat
  pages : Nat
deriving Repr, DecidableEq

/-- `.skip((page - 1) * limit).limit(limit)` plus the count metadata;
`pages` is `Math.ceil(total / limit)`. -/
def paginate {α : Type} (l : List α) (page limit : Nat) : Paginated α :=
  { data := (l.drop ((page - 1) * limit)).take limit, page := page, limit := limit,
    total := l.length, pages := (l.length + limit - 1) / limit }

/-- `Citizen.find({ deletedAt: null }).sort({ createdAt: -1 })`. -/
def listCitizensFull (db : CitizenDb) : List Citizen :=
  sortLe (fun a b => decide (b.createdAt ≤ a.createdAt))
    (db.citizens.filter (fun c => c.deletedAt == none))

/-- `CitizenService.listCitizens`. -/
def listCitizens (db : CitizenDb) (page limit : Nat) : Paginated Citizen :=
  paginate (listCitizensFull db) page limit

/-- `Citizen.find({ deletedAt: { $ne: null } }).sort({ deletedAt: -1 })`. -/
def citizenTrashFull (db : CitizenDb) : List Citizen :=
  sortLe (fun a b => decide (b.deletedAt.getD 0 ≤ a.deletedAt.getD 0))
    (db.citizens.filter (fun c => !(c.deletedAt == none)))

/-- `CitizenService.listTrash`. -/
def listCitizenTrash (db : CitizenDb) (page limit : Nat) : Paginated Citizen :=
  paginate (citizenTrashFull db) page limit

/-! ## User service (`user.service.js`) -/

/-- `User.findById(userId)` inside the user service. -/
def findUserById (db : Db) (userId : Nat) : Option User :=
  db.users.find? (fun u => u.id == userId)

/-- `user.save()` for an existing user. -/
def replaceUser (us : List User) (u : User) : List User :=
  us.map (fun x => if x.id == u.id then u else x)

/-- The `[+]?[0-9]{8,15}` phone check applied to the trimmed value. -/
def phoneOk (s : String) : Bool :=
  let cs := (trimStr s).data
  let ds := if cs.head? == some (Char.ofNat 43) then cs.tail else cs
  decide (8 ≤ ds.length) && decide (ds.length ≤ 15) && ds.all Char.isDigit

/-- The creation payload of `UserService.createUser`. -/
structure CreateUserData where
  username : Option String := none
  password : Option String := none
  role_id : Option Nat := none
  roleId : Option Nat := none
  status : Option String := none
  phoneNumber : Option String := none
  profilePicturePath : Option String := none
deriving Repr, DecidableEq

/-- The insert performed by `new User(...).save()`.  The user schema
declares `unique: true` on `username`, so the collection carries a unique
index over ALL documents, soft-deleted ones included: an insert that
collides with any existing username is rejected with a duplicate-key
error. -/
def userSave (users : List User) (u : User) : Except String (List User) :=
  if users.any (fun x => x.username == u.username) then
    .error "E11000 duplicate key error: username"
  else .ok (users ++ [u])

/-- `UserService.createUser`, validations in source order; the
service-level duplicate check deliberately excludes soft-deleted users,
after which the document is handed to `userSave`. -/
def createUser (now : Int) (newId : Nat) (db : Db) (data : CreateUserData) :
    Except String Db :=
  if trimStr (data.username.getD "") == "" then .error "Username is required"
  else if trimStr (data.password.getD "") == "" then .error "Password is required"
  else if data.role_id == none && data.roleId == none then .error "Role ID is required"
  else
    let username := trimStr (data.username.getD "")
    let password := data.password.getD ""
    let roleId := match data.role_id with
      | some r => r
      | none => data.roleId.getD 0
    if username.length < 3 || username.length > 100 then
      .error "Username must be between 3 and 100 characters"
    else if password.length < 6 then .error "Password must be at least 6 characters"
    else
      match findRole db roleId with
      | none => .error "Invalid role ID"
      | some role =>
        if (db.users.find? (fun u => u.username == username && u.deletedAt == none)).isSome then
          .error "Username already exists"
        else if isTruthy data.phoneNumber && !phoneOk (data.phoneNumber.getD "") then
          .error "Invalid phone number format"
        else
          match userSave db.users
              { id := newId, username := username, password := password, roleId := roleId,
                role := role.name,
                status := if isTruthy data.status then data.status.getD "" else "ACTIVE",
                phoneNumber := jsTrimOrNull data.phoneNumber,
                profilePicturePath :=
                  match data.profilePicturePath with
                  | some p => if p == "" then none else some p
                  | none => none,
                deletedAt := none, createdAt := now } with
          | .error e => .error e
          | .ok users2 => .ok { db with users := users2 }

/-- `UserService.deleteUser`: `findById`, reject when missing or already
soft-deleted, else stamp `deletedAt`. -/
def deleteUser (now : Int) (db : Db) (userId : Nat) : Except String Db :=
  match findUserById db userId with
  | none => .error "User not found"
  | some u =>
    if u.deletedAt == none then
      .ok { db with users := replaceUser db.users { u with deletedAt := some now } }
    else .error "User not found"

/-- `UserService.restoreUser`: `findById` with no lifecycle filter, then
unconditionally clear `deletedAt`. -/
def restoreUser (db : Db) (userId : Nat) : Except String (Db × User) :=
  match findUserById db userId with
  | none => .error "User not found"
  | some u =>
    let u2 := { u with deletedAt := none }
    .ok ({ db with users := replaceUser db.users u2 }, u2)

/-- `User.find({ deletedAt: null }).sort({ createdAt: -1 })`. -/
def listUsersFull (db : Db) : List User :=
  sortLe (fun a b => decide (b.createdAt ≤ a.createdAt))
    (db.users.filter (fun u => u.deletedAt == none))

/-- `UserService.listUsers`. -/
def listUsers (db : Db) (page limit : Nat) : Paginated User :=
  paginate (listUsersFull db) page limit

/-- `User.find({ deletedAt: { $ne: null } }).sort({ deletedAt: -1 })`. -/
def userTrashFull (db : Db) : List User :=
  sortLe (fun a b => decide (b.deletedAt.getD 0 ≤ a.deletedAt.getD 0))
    (db.users.filter (fun u => !(u.deletedAt == none)))

/-- `UserService.listTrash`. -/
def listUserTrash (db : Db) (page limit : Nat) : Paginated User :=
  paginate (userTrashFull db) page limit

/-! ## Occurrence counting in a composed forest

Used to state where a menu does and does not occur in the output of
`buildMenuTree`. -/

mutual

/-- Number of nodes with id `t` in a tree. -/
def nodeCount (t : Nat) : MenuNode → Nat
  | .mk i _ _ _ _ cs => (if i = t then 1 else 0) + forestCount t cs

/-- Number of nodes with id `t` in a forest. -/
def forestCount (t : Nat) : List MenuNode → Nat
  | [] => 0
  | n :: ns => nodeCount t n + forestCount t ns

end

/-! ## Concrete fixtures

Small sample records used by the concrete evaluations below. -/

def pView : Permission :=
  { id := 1, code := "VIEW_CITIZEN", name := "View citizens", description := "" }

def pManage : Permission :=
  { id := 2, code := "MANAGE_USERS", name := "Manage users", description := "" }

def rAll : Role :=
  { id := 10, name := "ADMIN", description := "all permissions", permissions := [1, 2] }

def uDisabled : User :=
  { id := 1, username := "dis", password := "pw", roleId := 10, role := "ADMIN",
    status := "DISABLED", phoneNumber := none, profilePicturePath := none,
    deletedAt := none, createdAt := 0 }

def uActive : User :=
  { id := 2, username := "alice", password := "pw", roleId := 10, role := "ADMIN",
    status := "ACTIVE", phoneNumber := none, profilePicturePath := none,
    deletedAt := none, createdAt := 1 }

def uTrashedAlice : User :=
  { id := 3, username := "alice", password := "pw", roleId := 10, role := "OFFICER",
    status := "ACTIVE", phoneNumber := none, profilePicturePath := none,
    deletedAt := some 7, createdAt := 2 }

def cActive : Citizen :=
  { nationalId := "1234567890", firstName := "A", middleName := none, lastName := "B",
    gender := "MALE", dateOfBirth := 0, placeOfBirth := "X", nationality := "Somali",
    status := "ACTIVE", deletedAt := none, createdAt := 1 }

def cTrashed : Citizen :=
  { nationalId := "1234567890", firstName := "A", middleName := none, lastName := "B",
    gender := "MALE", dateOfBirth := 0, placeOfBirth := "X", nationality := "Somali",
    status := "ACTIVE", deletedAt := some 5, createdAt := 1 }

def cDeceased : Citizen := { cActive with status := "DECEASED" }

/-- A store in which the username "alice" is held only by a soft-deleted
user. -/
def dbTrashedAlice : Db :=
  { users := [uTrashedAlice], roles := [rAll], perms := [pView, pManage], menus := [] }

def rowDeceased : LogRow :=
  { nationalId := "1234567890", oldStatus := "ACTIVE", newStatus := "DECEASED",
    changedBy := 1 }

/-- A menu whose parent reference points outside any fetched set. -/
def mOrphan : Menu :=
  { id := 1, name := "Orphan child", route := some "/orphan", icon := none,
    parentId := some 99, orderIndex := 0, permissionCode := none }

/-- A parentless menu with no required permission. -/
def mOpen : Menu :=
  { id := 2, name := "Dashboard", route := some "/dashboard", icon := none,
    parentId := none, orderIndex := 0, permissionCode := none }

def emptyDb : Db := { users := [], roles := [], perms := [], menus := [] }

/-- A store whose only user is disabled yet whose role holds every
permission in the store. -/
def dbDisabled : Db :=
  { users := [uDisabled], roles := [rAll], perms := [pView, pManage], menus := [] }

def dbActive : Db :=
  { users := [uActive], roles := [rAll], perms := [pView, pManage], menus := [] }

/-! ## Helper lemmas: stable sort -/

theorem insertLe_perm {α : Type} (le : α → α → Bool) (x : α) (l : List α) :
    (insertLe le x l).Perm (x :: l) := by
  induction l with
  | nil => simp [insertLe]
  | cons y ys ih =>
    simp only [insertLe]
    split
    · exact List.Perm.refl _
    · exact (ih.cons y).trans (List.Perm.swap x y ys)

theorem sortLe_perm {α : Type} (le : α → α → Bool) (l : List α) :
    (sortLe le l).Perm l := by
  induction l with
  | nil => exact List.Perm.refl _
  | cons x xs ih => exact (insertLe_perm le x (sortLe le xs)).trans (ih.cons x)

theorem mem_sortLe {α : Type} (le : α → α → Bool) (a : α) (l : List α) :
    a ∈ sortLe le l ↔ a ∈ l := (sortLe_perm le l).mem_iff

theorem insertLe_pairwise {α : Type} (le : α → α → Bool)
    (htrans : ∀ a b c, le a b = true → le b c = true → le a c = true)
    (htot : ∀ a b, le a b = true ∨ le b a = true)
    (x : α) (l : List α) (hl : l.Pairwise (fun a b => le a b = true)) :
    (insertLe le x l).Pairwise (fun a b => le a b = true) := by
  induction l with
  | nil => simp [insertLe]
  | cons y ys ih =>
    rcases List.pairwise_cons.mp hl with ⟨hy, hys⟩
    by_cases hxy : le x y = true
    · simp only [insertLe, hxy, if_true]
      refine List.pairwise_cons.mpr ⟨?_, hl⟩
      intro z hz
      rcases List.mem_cons.mp hz with rfl | hz2
      · exact hxy
      · exact htrans x y z hxy (hy z hz2)
    · have hyx : le y x = true := (htot x y).resolve_left hxy
      simp only [insertLe, hxy, if_false, Bool.false_eq_true]
      refine List.pairwise_cons.mpr ⟨?_, ih hys⟩
      intro z hz
      rcases List.mem_cons.mp ((insertLe_perm le x ys).mem_iff.mp hz) with rfl | hz2
      · exact hyx
      · exact hy z hz2

theorem sortLe_pairwise {α : Type} (le : α → α → Bool)
    (htrans : ∀ a b c, le a b = true → le b c = true → le a c = true)
    (htot : ∀ a b, le a b = true ∨ le b a = true)
    (l : List α) : (sortLe le l).Pairwise (fun a b => le a b = true) := by
  induction l with
  | nil => simp [sortLe]
  | cons x xs ih => exact insertLe_pairwise le htrans htot x (sortLe le xs) ih

/-- Membership in a sorted filtering of a list. -/
theorem mem_filter_sortLe {α : Type} (le : α → α → Bool) (p : α → Bool) (a : α)
    (l : List α) : a ∈ sortLe le (l.filter p) ↔ a ∈ l ∧ p a = true := by
  rw [mem_sortLe, List.mem_filter]

/-- C8: for every store state, the "active" listing contains exactly the
entities with `deletedAt = null`, newest-created first, the "trash" listing
contains exactly the entities with `deletedAt != null`, most-recently-deleted
first, no entity appears in both (the two views strictly partition the
non-purged rows), and a listing page is the corresponding slice of the full
ordered listing — for citizens and users alike. -/
theorem listings_strict_partition (db : CitizenDb) (udb : Db) :
    (∀ c : Citizen, c ∈ listCitizensFull db ↔ c ∈ db.citizens ∧ c.deletedAt = none)
    ∧ (∀ c : Citizen, c ∈ citizenTrashFull db ↔ c ∈ db.citizens ∧ c.deletedAt ≠ none)
    ∧ (∀ c : Citizen, ¬(c ∈ listCitizensFull db ∧ c ∈ citizenTrashFull db))
    ∧ (listCitizensFull db).Pairwise (fun a b => b.createdAt ≤ a.createdAt)
    ∧ (citizenTrashFull db).Pairwise (fun a b => b.deletedAt.getD 0 ≤ a.deletedAt.getD 0)
    ∧ (∀ u : User, u ∈ listUsersFull udb ↔ u ∈ udb.users ∧ u.deletedAt = none)
    ∧ (∀ u : User, u ∈ userTrashFull udb ↔ u ∈ udb.users ∧ u.deletedAt ≠ none)
    ∧ (∀ u : User, ¬(u ∈ listUsersFull udb ∧ u ∈ userTrashFull udb))
    ∧ (listUsersFull udb).Pairwise (fun a b => b.createdAt ≤ a.createdAt)
    ∧ (userTrashFull udb).Pairwise (fun a b => b.deletedAt.getD 0 ≤ a.deletedAt.getD 0)
    ∧ (∀ page limit : Nat,
        (listCitizens db page limit).data =
          ((listCitizensFull db).drop ((page - 1) * limit)).take limit
        ∧ (listCitizenTrash db page limit).data =
          ((citizenTrashFull db).drop ((page - 1) * limit)).take limit
        ∧ (listUsers udb page limit).data =
          ((listUsersFull udb).drop ((page - 1) * limit)).take limit
        ∧ (listUserTrash udb page limit).data =
          ((userTrashFull udb).drop ((page - 1) * limit)).take limit) := by
  have hmemC : ∀ c : Citizen, c ∈ listCitizensFull db ↔ c ∈ db.citizens ∧ c.deletedAt = none := by
    intro c
    rw [listCitizensFull, mem_filter_sortLe]
    simp
  have hmemT : ∀ c : Citizen, c ∈ citizenTrashFull db ↔ c ∈ db.citizens ∧ c.deletedAt ≠ none := by
    intro c
    rw [citizenTrashFull, mem_filter_sortLe]
    simp
  have hmemU : ∀ u : User, u ∈ listUsersFull udb ↔ u ∈ udb.users ∧ u.deletedAt = none := by
    intro u
    rw [listUsersFull, mem_filter_sortLe]
    simp
  have hmemUT : ∀ u : User, u ∈ userTrashFull udb ↔ u ∈ udb.users ∧ u.deletedAt ≠ none := by
    intro u
    rw [userTrashFull, mem_filter_sortLe]
    simp
  refine ⟨hmemC, hmemT, ?_, ?_, ?_, hmemU, hmemUT, ?_, ?_, ?_, ?_⟩
  · intro c ⟨h1, h2⟩
    exact ((hmemT c).mp h2).2 ((hmemC c).mp h1).2
  · refine ((sortLe_pairwise _ ?_ ?_ _).imp (fun h => of_decide_eq_true h))
    · intro a b c hab hbc
      exact decide_eq_true (le_trans (of_decide_eq_true hbc) (of_decide_eq_true hab))
    · intro a b
      rcases Int.le_total b.createdAt a.createdAt with h | h
      · exact Or.inl (decide_eq_true h)
      · exact Or.inr (decide_eq_true h)
  · refine ((sortLe_pairwise _ ?_ ?_ _).imp (fun h => of_decide_eq_true h))
    · intro a b c hab hbc
      exact decide_eq_true (le_trans (of_decide_eq_true hbc) (of_decide_eq_true hab))
    · intro a b
      rcases Int.le_total (b.deletedAt.getD 0) (a.deletedAt.getD 0) with h | h
      · exact Or.inl (decide_eq_true h)
      · exact Or.inr (decide_eq_true h)
  · intro u ⟨h1, h2⟩
    exact ((hmemUT u).mp h2).2 ((hmemU u).mp h1).2
  · refine ((sortLe_pairwise _ ?_ ?_ _).imp (fun h => of_decide_eq_true h))
    · intro a b c hab hbc
      exact decide_eq_true (le_trans (of_decide_eq_true hbc) (of_decide_eq_true hab))
    · intro a b
      rcases Int.le_total b.createdAt a.createdAt with h | h
      · exact Or.inl (decide_eq_true h)
      · exact Or.inr (decide_eq_true h)
  · refine ((sortLe_pairwise _ ?_ ?_ _).imp (fun h => of_decide_eq_true h))
    · intro a b c hab hbc
      exact decide_eq_true (le_trans (of_decide_eq_true hbc) (of_decide_eq_true hab))
    · intro a b
      rcases Int.le_total (b.deletedAt.getD 0) (a.deletedAt.getD 0) with h | h
      · exact Or.inl (decide_eq_true h)
      · exact Or.inr (decide_eq_true h)
  · intro page limit
    exact ⟨rfl, rfl, rfl, rfl⟩

/-! ## Helper lemmas: lookups and saves -/

theorem findActiveCitizen_props {db : CitizenDb} {nid : String} {c : Citizen}
    (h : findActiveCitizen db nid = some c) :
    c ∈ db.citizens ∧ c.nationalId = nid ∧ c.deletedAt = none := by
  refine ⟨List.mem_of_find?_eq_some h, ?_⟩
  have hp := List.find?_some h
  rw [Bool.and_eq_true, beq_iff_eq, beq_iff_eq] at hp
  exact hp

theorem citizen_clear_deletedAt_eq {c : Citizen} (h : c.deletedAt = none) :
    { c with deletedAt := none } = c := by
  cases c
  simp_all

theorem user_clear_deletedAt_eq {u : User} (h : u.deletedAt = none) :
    { u with deletedAt := none } = u := by
  cases u
  simp_all

theorem replaceCitizen_self {cs : List Citizen} {c : Citizen}
    (hnd : (cs.map Citizen.nationalId).Nodup) (hc : c ∈ cs) :
    replaceCitizen cs c = cs := by
  unfold replaceCitizen
  refine (List.map_congr_left ?_).trans (List.map_id cs)
  intro x hx
  by_cases hb : (x.nationalId == c.nationalId) = true
  · rw [beq_iff_eq] at hb
    have : x = c := List.inj_on_of_nodup_map hnd hx hc hb
    simp [this]
  · simp [hb]

theorem replaceUser_self {us : List User} {u : User}
    (hnd : (us.map User.id).Nodup) (hu : u ∈ us) :
    replaceUser us u = us := by
  unfold replaceUser
  refine (List.map_congr_left ?_).trans (List.map_id us)
  intro x hx
  by_cases hb : (x.id == u.id) = true
  · rw [beq_iff_eq] at hb
    have : x = u := List.inj_on_of_nodup_map hnd hx hu hb
    simp [this]
  · simp [hb]

/-- C6: soft-deleting an entity that is already trashed, or that does not
exist, fails with the "not found" error for both citizens and users; since
an `Except.error` result commits no store, `deletedAt` is not modified and
no record is created. -/
theorem softDelete_trashed_or_missing_fails (now : Int) (db : CitizenDb) (udb : Db)
    (nid : String) (uid : Nat)
    (hc : ∀ c ∈ db.citizens, c.nationalId = nid → c.deletedAt ≠ none)
    (hu : ∀ u ∈ udb.users, u.id = uid → u.deletedAt ≠ none) :
    deleteCitizen now db nid = .error "Citizen not found"
    ∧ deleteUser now udb uid = .error "User not found" := by
  constructor
  · have hfind : findActiveCitizen db nid = none := by
      rw [findActiveCitizen, List.find?_eq_none]
      intro x hx hpx
      rw [Bool.and_eq_true, beq_iff_eq, beq_iff_eq] at hpx
      exact hc x hx hpx.1 hpx.2
    rw [deleteCitizen, hfind]
  · rw [deleteUser]
    cases hfind : findUserById udb uid with
    | none => rfl
    | some u =>
      have hmem := List.mem_of_find?_eq_some hfind
      have hid : u.id = uid := by
        have hp := List.find?_some hfind
        rwa [beq_iff_eq] at hp
      have hne : (u.deletedAt == none) = false :=
        beq_eq_false_iff_ne.mpr (hu u hmem hid)
      simp [hne]

/-- C6 witness: a store whose only citizen with the requested key is already
trashed, and a store containing no user with the requested id. -/
theorem softDelete_trashed_or_missing_fails_witness :
    deleteCitizen 9 { citizens := [cTrashed], logs := [] } "1234567890" =
        .error "Citizen not found"
    ∧ deleteUser 9 emptyDb 3 = .error "User not found" :=
  softDelete_trashed_or_missing_fails 9 _ _ "1234567890" 3 (by decide) (by decide)

/-- C7: for both entity types, restore fails with "not found" on a
nonexistent entity, succeeds on a trashed entity by clearing `deletedAt`,
and on an entity whose `deletedAt` is already null it succeeds while
leaving the store exactly unchanged (a no-op): clearing a set `deletedAt`
happens only from the trashed state. -/
theorem restore_clears_only_trashed (db : CitizenDb) (udb : Db) (nid : String) (uid : Nat)
    (hcn : (db.citizens.map Citizen.nationalId).Nodup)
    (hun : (udb.users.map User.id).Nodup) :
    (db.citizens.find? (fun x => x.nationalId == nid) = none →
      restoreCitizen db nid = .error "Citizen not found")
    ∧ (∀ c, db.citizens.find? (fun x => x.nationalId == nid) = some c → c.deletedAt ≠ none →
      restoreCitizen db nid =
        .ok ({ db with citizens := replaceCitizen db.citizens { c with deletedAt := none } },
             { c with deletedAt := none }))
    ∧ (∀ c, db.citizens.find? (fun x => x.nationalId == nid) = some c → c.deletedAt = none →
      restoreCitizen db nid = .ok (db, c))
    ∧ (findUserById udb uid = none → restoreUser udb uid = .error "User not found")
    ∧ (∀ u, findUserById udb uid = some u → u.deletedAt ≠ none →
      restoreUser udb uid =
        .ok ({ udb with users := replaceUser udb.users { u with deletedAt := none } },
             { u with deletedAt := none }))
    ∧ (∀ u, findUserById udb uid = some u → u.deletedAt = none →
      restoreUser udb uid = .ok (udb, u)) := by
  refine ⟨?_, ?_, ?_, ?_, ?_, ?_⟩
  · intro h
    rw [restoreCitizen, h]
  · intro c h _
    rw [restoreCitizen, h]
  · intro c h hnone
    simp only [restoreCitizen, h]
    rw [citizen_clear_deletedAt_eq hnone,
      replaceCitizen_self hcn (List.mem_of_find?_eq_some h)]
  · intro h
    rw [restoreUser, findUserById] at *
    rw [h]
  · intro u h _
    rw [restoreUser, h]
  · intro u h hnone
    simp only [restoreUser, h]
    rw [user_clear_deletedAt_eq hnone,
      replaceUser_self hun (List.mem_of_find?_eq_some h)]

/-- C7 witness: restoring an active (never-deleted) citizen returns success
with the store unchanged, and restoring a trashed user clears `deletedAt`. -/
theorem restore_clears_only_trashed_witness :
    restoreCitizen { citizens := [cActive], logs := [] } "1234567890" =
      .ok ({ citizens := [cActive], logs := [] }, cActive) :=
  (restore_clears_only_trashed { citizens := [cActive], logs := [] } emptyDb
      "1234567890" 0 (by decide) (by decide)).2.2.1 cActive rfl rfl

/-- C2: a principal whose account status is not ACTIVE or whose soft-delete
marker is set is denied (401) for every set of required codes; the denial is
produced by the `authenticate` stage, before `requirePermission` resolves
any permission, so the decision is independent of the role and permission
tables — even a role granted every code is denied. -/
theorem authorize_denies_inactive_or_deleted (db : Db) (userId : Nat)
    (codes : List String) (u : User)
    (hu : findUser db userId = some u)
    (hbad : u.status ≠ "ACTIVE" ∨ u.deletedAt ≠ none) :
    authorize db userId codes = .deny 401
    ∧ ∀ roles2 perms2,
        authorize { db with roles := roles2, perms := perms2 } userId codes = .deny 401 := by
  have hauth : ∀ db2 : Db, findUser db2 userId = some u →
      authenticateUser db2 userId = .error 401 := by
    intro db2 h2
    simp only [authenticateUser, h2]
    rcases hbad with hs | hd
    · have hf : (u.status == "ACTIVE") = false := beq_eq_false_iff_ne.mpr hs
      simp [hf]
    · have hf : (u.deletedAt == none) = false := beq_eq_false_iff_ne.mpr hd
      by_cases hst : (u.status == "ACTIVE") = true
      · simp [hst, hf]
      · simp [hst]
  constructor
  · rw [authorize, hauth db hu]
  · intro roles2 perms2
    have h2 : findUser { db with roles := roles2, perms := perms2 } userId = some u := hu
    rw [authorize, hauth _ h2]

/-- C2 witness: the disabled user of `dbDisabled` is denied although its
role holds every permission in the store. -/
theorem authorize_denies_inactive_or_deleted_witness :
    authorize dbDisabled 1 ["VIEW_CITIZEN", "MANAGE_USERS"] = .deny 401 :=
  (authorize_denies_inactive_or_deleted dbDisabled 1 ["VIEW_CITIZEN", "MANAGE_USERS"]
      uDisabled rfl (Or.inl (by decide))).1

/-- C5: the permission resolver returns the empty list when the principal is
missing or its role is unresolvable, and otherwise returns exactly the
permission codes attached to the principal's role: membership is
characterised by the role's reference list, and (under the store's key
invariants: unique permission ids, no duplicate references, unique codes)
the returned list is duplicate-free. -/
theorem getUserPermissions_exact (db : Db) (userId : Nat) :
    (findUser db userId = none → getUserPermissions db userId = [])
    ∧ (∀ u, findUser db userId = some u → findRole db u.roleId = none →
        getUserPermissions db userId = [])
    ∧ (∀ u r, findUser db userId = some u → findRole db u.roleId = some r →
        (∀ code, code ∈ getUserPermissions db userId ↔
          ∃ pid ∈ r.permissions, ∃ p, db.perms.find? (fun q => q.id == pid) = some p
            ∧ p.code = code)
        ∧ ((db.perms.map Permission.id).Nodup →
            ∀ code, code ∈ getUserPermissions db userId ↔
              ∃ pid ∈ r.permissions, ∃ p ∈ db.perms, p.id = pid ∧ p.code = code)
        ∧ ((db.perms.map Permission.id).Nodup → r.permissions.Nodup →
            (db.perms.map Permission.code).Nodup →
            (getUserPermissions db userId).Nodup)) := by
  refine ⟨?_, ?_, ?_⟩
  · intro h
    rw [getUserPermissions, h]
  · intro u hu hr
    simp only [getUserPermissions, hu, hr]
  · intro u r hu hr
    have hval : getUserPermissions db userId =
        (r.permissions.filterMap (fun pid => db.perms.find? (fun p => p.id == pid))).map
          Permission.code := by
      simp only [getUserPermissions, hu, hr]
    have hmem : ∀ code, code ∈ getUserPermissions db userId ↔
        ∃ pid ∈ r.permissions, ∃ p, db.perms.find? (fun q => q.id == pid) = some p
          ∧ p.code = code := by
      intro code
      rw [hval]
      simp only [List.mem_map, List.mem_filterMap]
      constructor
      · rintro ⟨p, ⟨pid, hpid, hfind⟩, hcode⟩
        exact ⟨pid, hpid, p, hfind, hcode⟩
      · rintro ⟨pid, hpid, p, hfind, hcode⟩
        exact ⟨p, ⟨pid, hpid, hfind⟩, hcode⟩
    refine ⟨hmem, ?_, ?_⟩
    · intro hids code
      rw [hmem code]
      constructor
      · rintro ⟨pid, hpid, p, hfind, hcode⟩
        have hpm := List.mem_of_find?_eq_some hfind
        have hpi : p.id = pid := by
          have hp := List.find?_some hfind
          rwa [beq_iff_eq] at hp
        exact ⟨pid, hpid, p, hpm, hpi, hcode⟩
      · rintro ⟨pid, hpid, p, hpm, hpi, hcode⟩
        have hsome : (db.perms.find? (fun q => q.id == pid)).isSome := by
          rw [List.find?_isSome]
          exact ⟨p, hpm, by rw [beq_iff_eq]; exact hpi⟩
        rcases Option.isSome_iff_exists.mp hsome with ⟨q, hq⟩
        have hqm := List.mem_of_find?_eq_some hq
        have hqi : q.id = pid := by
          have hp := List.find?_some hq
          rwa [beq_iff_eq] at hp
        have hqp : q = p := List.inj_on_of_nodup_map hids hqm hpm (by rw [hqi, hpi])
        exact ⟨pid, hpid, q, hq, by rw [hqp, hcode]⟩
    · intro hids hperms hcodes
      rw [hval, List.map_filterMap]
      refine List.Nodup.filterMap ?_ hperms
      intro a a2 b hb hb2
      rcases Option.map_eq_some'.mp hb with ⟨p, hfind, hcode⟩
      rcases Option.map_eq_some'.mp hb2 with ⟨p2, hfind2, hcode2⟩
      have hpm := List.mem_of_find?_eq_some hfind
      have hpm2 := List.mem_of_find?_eq_some hfind2
      have hpi : p.id = a := by
        have hp := List.find?_some hfind
        rwa [beq_iff_eq] at hp
      have hpi2 : p2.id = a2 := by
        have hp := List.find?_some hfind2
        rwa [beq_iff_eq] at hp
      have hpp : p = p2 :=
        List.inj_on_of_nodup_map hcodes hpm hpm2 (by rw [hcode, hcode2])
      rw [← hpi, ← hpi2, hpp]

/-- C5 witness: for an active user of `dbActive`, the resolver's output is
duplicate-free and contains exactly the two codes attached to the role. -/
theorem getUserPermissions_exact_witness :
    (getUserPermissions dbActive 2).Nodup
    ∧ ("VIEW_CITIZEN" ∈ getUserPermissions dbActive 2 ↔
        ∃ pid ∈ rAll.permissions, ∃ p ∈ dbActive.perms,
          p.id = pid ∧ p.code = "VIEW_CITIZEN") :=
  ⟨((getUserPermissions_exact dbActive 2).2.2 uActive rAll rfl rfl).2.2
      (by decide) (by decide) (by decide),
    ((getUserPermissions_exact dbActive 2).2.2 uActive rAll rfl rfl).2.1
      (by decide) "VIEW_CITIZEN"⟩

/-! ## Helper lemmas: the composed menu forest -/

theorem toNode_id (menus : List Menu) (fuel : Nat) (m : Menu) :
    (toNode menus fuel m).id = m.id := by
  cases fuel <;> rfl

theorem nodeCount_mk (t i : Nat) (l : String) (r ic : Option String) (o : Int)
    (cs : List MenuNode) :
    nodeCount t (.mk i l r ic o cs) = (if i = t then 1 else 0) + forestCount t cs := by
  rw [nodeCount]

theorem forestCount_eq_sum (t : Nat) (ns : List MenuNode) :
    forestCount t ns = (ns.map (nodeCount t)).sum := by
  induction ns with
  | nil => rw [forestCount]; rfl
  | cons n ns ih => rw [forestCount, ih]; simp

theorem forestCount_perm (t : Nat) {ns ns2 : List MenuNode} (h : ns.Perm ns2) :
    forestCount t ns = forestCount t ns2 := by
  rw [forestCount_eq_sum, forestCount_eq_sum]
  exact (h.map _).sum_eq

theorem nodeCount_sortChildrenTop (t : Nat) (n : MenuNode) :
    nodeCount t (sortChildrenTop n) = nodeCount t n := by
  cases n with
  | mk i l r ic o cs =>
    simp only [sortChildrenTop, sortNodes]
    rw [nodeCount_mk, nodeCount_mk, forestCount_perm t (sortLe_perm _ cs)]

/-- A menu that no fetched menu's id can parent is invisible in every
`toNode` tree rooted at a different-id menu. -/
theorem nodeCount_toNode_zero (menus : List Menu) (m : Menu)
    (hnd : (menus.map Menu.id).Nodup) (hm : m ∈ menus)
    (hnr : ∀ q ∈ menus, m.parentId ≠ some q.id) :
    ∀ fuel, ∀ m0 ∈ menus, m0.id ≠ m.id →
      nodeCount m.id (toNode menus fuel m0) = 0 := by
  intro fuel
  induction fuel with
  | zero =>
    intro m0 _ hid
    rw [toNode, nodeCount_mk, if_neg hid, forestCount]
  | succ fuel ih =>
    intro m0 hm0 hid
    have hz : ((menus.filter (fun c => c.parentId == some m0.id)).map
        (fun c => nodeCount m.id (toNode menus fuel c))).sum = 0 := by
      apply List.sum_eq_zero
      intro x hx
      rcases List.mem_map.mp hx with ⟨c, hc, rfl⟩
      have hcm := (List.mem_filter.mp hc).1
      have hcp : c.parentId = some m0.id := by
        have hp := (List.mem_filter.mp hc).2
        rwa [beq_iff_eq] at hp
      have hcid : c.id ≠ m.id := by
        intro he
        have hcem : c = m := List.inj_on_of_nodup_map hnd hcm hm he
        rw [hcem] at hcp
        exact absurd hcp (hnr m0 hm0)
      exact ih c hcm hcid
    rw [toNode, nodeCount_mk, if_neg hid, forestCount_eq_sum, List.map_map]
    simpa using hz

/-- A parentless menu's own tree carries its id exactly once at the root. -/
theorem nodeCount_toNode_self (menus : List Menu) (m : Menu)
    (hnd : (menus.map Menu.id).Nodup) (hm : m ∈ menus)
    (hnr : ∀ q ∈ menus, m.parentId ≠ some q.id) :
    ∀ fuel, nodeCount m.id (toNode menus fuel m) = 1 := by
  intro fuel
  cases fuel with
  | zero => rw [toNode, nodeCount_mk, if_pos rfl, forestCount]
  | succ fuel =>
    have hz : ((menus.filter (fun c => c.parentId == some m.id)).map
        (fun c => nodeCount m.id (toNode menus fuel c))).sum = 0 := by
      apply List.sum_eq_zero
      intro x hx
      rcases List.mem_map.mp hx with ⟨c, hc, rfl⟩
      have hcm := (List.mem_filter.mp hc).1
      have hcp : c.parentId = some m.id := by
        have hp := (List.mem_filter.mp hc).2
        rwa [beq_iff_eq] at hp
      have hcid : c.id ≠ m.id := by
        intro he
        have hcem : c = m := List.inj_on_of_nodup_map hnd hcm hm he
        rw [hcem] at hcp
        exact absurd hcp (hnr m hm)
      exact nodeCount_toNode_zero menus m hnd hm hnr fuel c hcm hcid
    rw [toNode, nodeCount_mk, if_pos rfl, forestCount_eq_sum, List.map_map]
    simpa using hz

/-- The occurrence count over the whole composed forest reduces to a sum
over the parentless fetched menus. -/
theorem forestCount_buildMenuTree (menus : List Menu) (t : Nat) :
    forestCount t (buildMenuTree menus) =
      ((menus.filter (fun m => m.parentId == none)).map
        (fun m0 => nodeCount t (toNode menus menus.length m0))).sum := by
  simp only [buildMenuTree]
  rw [forestCount_eq_sum, List.map_map]
  have h1 : (sortNodes ((menus.filter (fun m => m.parentId == none)).map
        (toNode menus menus.length))).map (nodeCount t ∘ sortChildrenTop) =
      (sortNodes ((menus.filter (fun m => m.parentId == none)).map
        (toNode menus menus.length))).map (nodeCount t) :=
    List.map_congr_left (fun n _ => nodeCount_sortChildrenTop t n)
  rw [h1]
  have h2 := ((sortLe_perm (fun a b => decide (a.orderIndex ≤ b.orderIndex))
      ((menus.filter (fun m => m.parentId == none)).map
        (toNode menus menus.length))).map (nodeCount t)).sum_eq
  simp only [sortNodes]
  rw [h2, List.map_map]
  rfl

theorem sum_map_one {α : Type} (f : α → Nat) (l : List α) (a : α)
    (hnd : l.Nodup) (ha : a ∈ l) (hfa : f a = 1)
    (h0 : ∀ b ∈ l, b ≠ a → f b = 0) : (l.map f).sum = 1 := by
  induction l with
  | nil => cases ha
  | cons x xs ih =>
    rcases List.nodup_cons.mp hnd with ⟨hx, hxs⟩
    rcases List.mem_cons.mp ha with rfl | ha2
    · have hz : ((xs.map f)).sum = 0 := by
        apply List.sum_eq_zero
        intro y hy
        rcases List.mem_map.mp hy with ⟨b, hb, rfl⟩
        refine h0 b (List.mem_cons_of_mem _ hb) ?_
        intro he
        exact hx (he ▸ hb)
      simp [hfa, hz]
    · have hxa : x ≠ a := by
        intro he
        exact hx (he ▸ ha2)
      have hfx : f x = 0 := h0 x (List.mem_cons_self x xs) hxa
      have := ih hxs ha2 (fun b hb hba => h0 b (List.mem_cons_of_mem _ hb) hba)
      simp [hfx, this]

/-- A parentless member of a fetched set contributes a root with its id. -/
theorem mem_rootIds_of_parentless (menus2 : List Menu) (m : Menu)
    (hm : m ∈ menus2) (hp : m.parentId = none) :
    m.id ∈ (buildMenuTree menus2).map MenuNode.id := by
  simp only [buildMenuTree, List.map_map]
  have hcomp : ∀ n : MenuNode, (MenuNode.id ∘ sortChildrenTop) n = MenuNode.id n := by
    intro n
    cases n
    rfl
  rw [List.map_congr_left (fun n _ => hcomp n)]
  rw [List.mem_map]
  refine ⟨toNode menus2 menus2.length m, ?_, toNode_id menus2 menus2.length m⟩
  simp only [sortNodes]
  rw [mem_sortLe]
  exact List.mem_map_of_mem _
    (List.mem_filter.mpr ⟨hm, by rw [beq_iff_eq]; exact hp⟩)

/-- C1 counterexample: a fetched menu whose parent reference points to a
menu absent from the fetched set is dropped by `buildMenuTree` — the
composed forest is empty, so the orphaned child does not appear as a root
node (nor anywhere else), contradicting the claimed demote-to-root policy
and the claimed exactly-once occurrence. -/
theorem buildMenuTree_orphan_dropped :
    buildMenuTree [mOrphan] = []
    ∧ forestCount mOrphan.id (buildMenuTree [mOrphan]) = 0 := by
  constructor
  · rfl
  · rw [show buildMenuTree [mOrphan] = [] from rfl, forestCount]

/-- C1 (amended): in the composed forest, for distinct menu ids, a fetched
menu whose parent reference points outside the fetched set occurs zero
times (it is omitted, not demoted to a root), while a fetched menu with no
parent reference occurs exactly once. -/
theorem buildMenuTree_orphan_and_root (menus : List Menu) (m : Menu)
    (hnd : (menus.map Menu.id).Nodup) (hm : m ∈ menus) :
    (∀ p, m.parentId = some p → p ∉ menus.map Menu.id →
        forestCount m.id (buildMenuTree menus) = 0)
    ∧ (m.parentId = none → forestCount m.id (buildMenuTree menus) = 1) := by
  constructor
  · intro p hp hpn
    have hnr : ∀ q ∈ menus, m.parentId ≠ some q.id := by
      intro q hq he
      rw [hp] at he
      apply hpn
      rw [Option.some_inj.mp he]
      exact List.mem_map_of_mem Menu.id hq
    rw [forestCount_buildMenuTree]
    apply List.sum_eq_zero
    intro x hx
    rcases List.mem_map.mp hx with ⟨m0, hm0f, rfl⟩
    have hm0 := (List.mem_filter.mp hm0f).1
    have hm0p : m0.parentId = none := by
      have hq := (List.mem_filter.mp hm0f).2
      rwa [beq_iff_eq] at hq
    have hid : m0.id ≠ m.id := by
      intro he
      have hme : m0 = m := List.inj_on_of_nodup_map hnd hm0 hm he
      rw [hme, hp] at hm0p
      exact Option.noConfusion hm0p
    exact nodeCount_toNode_zero menus m hnd hm hnr menus.length m0 hm0 hid
  · intro hp
    have hnr : ∀ q ∈ menus, m.parentId ≠ some q.id := by
      intro q hq he
      rw [hp] at he
      exact Option.noConfusion he
    rw [forestCount_buildMenuTree]
    have hmf : m ∈ menus.filter (fun x => x.parentId == none) :=
      List.mem_filter.mpr ⟨hm, by rw [beq_iff_eq]; exact hp⟩
    refine sum_map_one _ _ m ?_ hmf ?_ ?_
    · exact List.Nodup.filter _ (List.Nodup.of_map Menu.id hnd)
    · exact nodeCount_toNode_self menus m hnd hm hnr menus.length
    · intro b hb hbm
      have hbmem := (List.mem_filter.mp hb).1
      have hbid : b.id ≠ m.id := by
        intro he
        exact hbm (List.inj_on_of_nodup_map hnd hbmem hm he)
      exact nodeCount_toNode_zero menus m hnd hm hnr menus.length b hbmem hbid

/-- C1 witness: in the two-menu catalog `[mOrphan, mOpen]` the orphan
occurs zero times in the composed forest and the parentless menu exactly
once. -/
theorem buildMenuTree_orphan_and_root_witness :
    forestCount mOrphan.id (buildMenuTree [mOrphan, mOpen]) = 0
    ∧ forestCount mOpen.id (buildMenuTree [mOrphan, mOpen]) = 1 :=
  ⟨(buildMenuTree_orphan_and_root [mOrphan, mOpen] mOrphan (by decide)
      (by decide)).1 99 rfl (by decide),
    (buildMenuTree_orphan_and_root [mOrphan, mOpen] mOpen (by decide)
      (by decide)).2 rfl⟩

/-- C9 counterexample: with the empty granted set, `composeMenu` returns
the empty forest even though the catalog contains a menu with a null
`permissionCode` — the always-visible menu is omitted, contradicting the
claim for the empty granted set. -/
theorem composeMenu_empty_granted_omits_open :
    composeMenu [mOpen] [] = []
    ∧ (composeMenu [mOpen] []).map MenuNode.id = [] :=
  ⟨rfl, rfl⟩

/-- C9 (amended): for an empty granted set the composer returns the empty
forest without fetching; for every non-empty granted set the fetched set is
exactly the menus whose `permissionCode` is null or granted, the output is
the tree built from that set, and every parentless null-permission catalog
menu appears among the composed roots. -/
theorem composeMenu_null_permission (granted : List String) (menus : List Menu) :
    (granted = [] → composeMenu menus granted = [])
    ∧ (granted ≠ [] →
        (∀ m : Menu, m ∈ fetchMenus menus granted ↔
          m ∈ menus ∧ (m.permissionCode = none ∨
            ∃ c, m.permissionCode = some c ∧ c ∈ granted))
        ∧ composeMenu menus granted = buildMenuTree (fetchMenus menus granted)
        ∧ (∀ m : Menu, m ∈ menus → m.permissionCode = none →
            m.parentId = none →
            m.id ∈ (composeMenu menus granted).map MenuNode.id)) := by
  constructor
  · intro h
    rw [h]
    rfl
  · intro hne
    have hlen : (granted.length == 0) = false := by
      rw [beq_eq_false_iff_ne]
      intro h
      exact hne (List.length_eq_zero.mp h)
    have hcm : composeMenu menus granted = buildMenuTree (fetchMenus menus granted) := by
      rw [composeMenu, hlen]
      rfl
    have hfetch : ∀ m : Menu, m ∈ fetchMenus menus granted ↔
        m ∈ menus ∧ (m.permissionCode = none ∨
          ∃ c, m.permissionCode = some c ∧ c ∈ granted) := by
      intro m
      rw [fetchMenus, mem_sortLe, List.mem_filter]
      constructor
      · rintro ⟨hmem, hmatch⟩
        refine ⟨hmem, ?_⟩
        rw [menuMatch] at hmatch
        cases hpc : m.permissionCode with
        | none => exact Or.inl rfl
        | some c =>
          rw [hpc] at hmatch
          exact Or.inr ⟨c, rfl, List.elem_iff.mp hmatch⟩
      · rintro ⟨hmem, hcode⟩
        refine ⟨hmem, ?_⟩
        rw [menuMatch]
        rcases hcode with hnone | ⟨c, hc, hcg⟩
        · rw [hnone]
        · rw [hc]
          exact List.elem_iff.mpr hcg
    refine ⟨hfetch, hcm, ?_⟩
    intro m hmem hcode hparent
    rw [hcm]
    exact mem_rootIds_of_parentless (fetchMenus menus granted) m
      ((hfetch m).mpr ⟨hmem, Or.inl hcode⟩) hparent

/-- C9 witness: with granted set `["VIEW_CITIZEN"]`, the null-permission
menu is fetched and appears among the composed roots. -/
theorem composeMenu_null_permission_witness :
    mOpen ∈ fetchMenus [mOrphan, mOpen] ["VIEW_CITIZEN"]
    ∧ mOpen.id ∈ (composeMenu [mOrphan, mOpen] ["VIEW_CITIZEN"]).map MenuNode.id :=
  ⟨(((composeMenu_null_permission ["VIEW_CITIZEN"] [mOrphan, mOpen]).2
        (by decide)).1 mOpen).mpr ⟨by decide, Or.inl rfl⟩,
    ((composeMenu_null_permission ["VIEW_CITIZEN"] [mOrphan, mOpen]).2
        (by decide)).2.2 mOpen (by decide) rfl rfl⟩

/-! ## Helper lemmas: the citizen update pipeline -/

theorem applyFirstName_keeps (d : Option String) (c : Citizen) :
    (applyFirstName d c).status = c.status
    ∧ (applyFirstName d c).nationalId = c.nationalId := by
  rw [applyFirstName]
  constructor <;> (split <;> rfl)

theorem applyMiddleName_keeps (d : Option (Option String)) (c : Citizen) :
    (applyMiddleName d c).status = c.status
    ∧ (applyMiddleName d c).nationalId = c.nationalId := by
  cases d <;> simp [applyMiddleName]

theorem applyLastName_keeps (d : Option String) (c : Citizen) :
    (applyLastName d c).status = c.status
    ∧ (applyLastName d c).nationalId = c.nationalId := by
  rw [applyLastName]
  constructor <;> (split <;> rfl)

theorem applyPlaceOfBirth_keeps (d : Option String) (c : Citizen) :
    (applyPlaceOfBirth d c).status = c.status
    ∧ (applyPlaceOfBirth d c).nationalId = c.nationalId := by
  rw [applyPlaceOfBirth]
  constructor <;> (split <;> rfl)

theorem applyNationality_keeps (d : Option String) (c : Citizen) :
    (applyNationality d c).status = c.status
    ∧ (applyNationality d c).nationalId = c.nationalId := by
  rw [applyNationality]
  constructor <;> (split <;> rfl)

theorem applyGender_ok_keeps {d : Option String} {c c2 : Citizen}
    (h : applyGender d c = .ok c2) :
    c2.status = c.status ∧ c2.nationalId = c.nationalId := by
  rw [applyGender] at h
  split at h
  · split at h
    · injection h with h2
      rw [← h2]
      exact ⟨rfl, rfl⟩
    · exact Except.noConfusion h
  · injection h with h2
    rw [← h2]
    exact ⟨rfl, rfl⟩

theorem applyDateOfBirth_ok_keeps {today hya : Int} {d : Option Int} {c c2 : Citizen}
    (h : applyDateOfBirth today hya d c = .ok c2) :
    c2.status = c.status ∧ c2.nationalId = c.nationalId := by
  cases d with
  | none =>
    simp only [applyDateOfBirth] at h
    injection h with h2
    rw [← h2]
    exact ⟨rfl, rfl⟩
  | some dv =>
    simp only [applyDateOfBirth] at h
    split at h
    · exact Except.noConfusion h
    · split at h
      · exact Except.noConfusion h
      · injection h with h2
        rw [← h2]
        exact ⟨rfl, rfl⟩

theorem logCreate_false_ne_ok (logs logs2 : List LogRow) (row : LogRow) :
    logCreate false logs row ≠ .ok logs2 := by
  rw [logCreate]
  split
  · exact fun h => Except.noConfusion h
  · simp

theorem logCreate_ok {wk : Bool} {logs logs2 : List LogRow} {row : LogRow}
    (h : logCreate wk logs row = .ok logs2) :
    logs2 = logs ++ [row] ∧ wk = true := by
  rw [logCreate] at h
  split at h
  · exact Except.noConfusion h
  · split at h
    · exact Except.noConfusion h
    · injection h with h2
      rename_i hwk
      rw [Bool.not_eq_true'] at hwk
      exact ⟨h2.symm, by simpa using hwk⟩

theorem replaceCitizen_map_status {cs : List Citizen} {c0 cF : Citizen}
    (hnd : (cs.map Citizen.nationalId).Nodup) (h0 : c0 ∈ cs)
    (hn : cF.nationalId = c0.nationalId) (hs : cF.status = c0.status) :
    (replaceCitizen cs cF).map Citizen.status = cs.map Citizen.status := by
  rw [replaceCitizen, List.map_map]
  apply List.map_congr_left
  intro x hx
  by_cases hb : (x.nationalId == cF.nationalId) = true
  · have hx0 : x = c0 := by
      rw [beq_iff_eq, hn] at hb
      exact List.inj_on_of_nodup_map hnd hx h0 hb
    simp only [Function.comp_apply, if_pos hb]
    rw [hs, hx0]
  · simp only [Function.comp_apply, if_neg hb]

/-- C3: the citizen status update and its audit write are atomic.  Whenever
the operation reports success while the audit writer is failing, neither the
stored statuses nor the log changed (the status write is never committed
without its row, because the row is created before the save and a failed
creation aborts the operation); and whenever a successful operation did
change the status, the log grew by exactly the matching row. -/
theorem updateCitizen_audit_atomic (logWriteOk : Bool) (today hya : Int)
    (db : CitizenDb) (nid : String) (data : CitizenUpdate) (userId : Nat)
    (db2 : CitizenDb) (c2 : Citizen) (c0 : Citizen)
    (hnd : (db.citizens.map Citizen.nationalId).Nodup)
    (hfind : findActiveCitizen db nid = some c0)
    (h : updateCitizen logWriteOk today hya db nid data userId = .ok (db2, c2)) :
    (logWriteOk = false → c2.status = c0.status ∧ db2.logs = db.logs
      ∧ db2.citizens.map Citizen.status = db.citizens.map Citizen.status)
    ∧ (c2.status ≠ c0.status →
        db2.logs = db.logs ++
          [{ nationalId := nid, oldStatus := c0.status, newStatus := c2.status,
             changedBy := userId }]) := by
  have hc0mem : c0 ∈ db.citizens := (findActiveCitizen_props hfind).1
  simp only [updateCitizen, hfind] at h
  set cA := applyLastName data.lastName (applyMiddleName data.middleName
    (applyFirstName data.firstName c0)) with hcAdef
  have hcAs : cA.status = c0.status := by
    rw [hcAdef, (applyLastName_keeps _ _).1, (applyMiddleName_keeps _ _).1,
      (applyFirstName_keeps _ _).1]
  have hcAn : cA.nationalId = c0.nationalId := by
    rw [hcAdef, (applyLastName_keeps _ _).2, (applyMiddleName_keeps _ _).2,
      (applyFirstName_keeps _ _).2]
  cases hg : applyGender data.gender cA with
  | error e =>
    simp only [hg] at h
    exact Except.noConfusion h
  | ok c4 =>
    simp only [hg] at h
    have hc4 := applyGender_ok_keeps hg
    cases hd : applyDateOfBirth today hya data.dateOfBirth c4 with
    | error e =>
      simp only [hd] at h
      exact Except.noConfusion h
    | ok c5 =>
      simp only [hd] at h
      have hc5 := applyDateOfBirth_ok_keeps hd
      set cD := applyNationality data.nationality (applyPlaceOfBirth data.placeOfBirth c5)
        with hcDdef
      have hcDs : cD.status = c0.status := by
        rw [hcDdef, (applyNationality_keeps _ _).1, (applyPlaceOfBirth_keeps _ _).1,
          hc5.1, hc4.1, hcAs]
      have hcDn : cD.nationalId = c0.nationalId := by
        rw [hcDdef, (applyNationality_keeps _ _).2, (applyPlaceOfBirth_keeps _ _).2,
          hc5.2, hc4.2, hcAn]
      rw [applyStatusAndSave] at h
      by_cases ht : isTruthy data.status = true
      · rw [if_pos ht] at h
        by_cases he : (cD.status == toUpperStr (data.status.getD "")) = true
        · rw [if_pos he] at h
          injection h with h2
          injection h2 with hdb2 hc2
          subst hdb2
          subst hc2
          have hsts : ({ cD with status := toUpperStr (data.status.getD "") } : Citizen).status
              = c0.status := by
            show toUpperStr (data.status.getD "") = c0.status
            rw [← (beq_iff_eq.mp he), hcDs]
          refine ⟨?_, ?_⟩
          · intro _
            exact ⟨hsts, rfl, replaceCitizen_map_status hnd hc0mem hcDn hsts⟩
          · intro hne
            exact absurd hsts hne
        · rw [if_neg he] at h
          cases hl : logCreate logWriteOk db.logs
              { nationalId := nid, oldStatus := cD.status,
                newStatus := toUpperStr (data.status.getD ""), changedBy := userId } with
          | error e2 =>
            simp only [hl] at h
            exact Except.noConfusion h
          | ok logs2 =>
            simp only [hl] at h
            injection h with h2
            injection h2 with hdb2 hc2
            subst hdb2
            subst hc2
            obtain ⟨hlogs2, hwk⟩ := logCreate_ok hl
            refine ⟨?_, ?_⟩
            · intro hfalse
              rw [hfalse] at hwk
              exact Bool.noConfusion hwk
            · intro _
              show logs2 = db.logs ++ _
              rw [hlogs2, hcDs]
      · rw [if_neg ht] at h
        injection h with h2
        injection h2 with hdb2 hc2
        subst hdb2
        subst hc2
        refine ⟨?_, ?_⟩
        · intro _
          exact ⟨hcDs, rfl, replaceCitizen_map_status hnd hc0mem hcDn hcDs⟩
        · intro hne
          exact absurd hcDs hne

/-- C3 witness: a successful status change appends exactly the matching
audit row. -/
theorem updateCitizen_audit_atomic_witness :
    ([rowDeceased] : List LogRow) = [] ++ [rowDeceased] :=
  (updateCitizen_audit_atomic true 100 (-100) { citizens := [cActive], logs := [] }
      "1234567890" { status := some "DECEASED" } 1
      { citizens := [cDeceased], logs := [rowDeceased] }
      cDeceased cActive (by decide) rfl rfl).2 (by decide)

/-- A payload carrying only a status reduces the update pipeline to the
status-and-save block. -/
theorem updateCitizen_status_only (logWriteOk : Bool) (today hya : Int) (db : CitizenDb)
    (nid s : String) (userId : Nat) :
    updateCitizen logWriteOk today hya db nid { status := some s } userId =
      match findActiveCitizen db nid with
      | none => .error "Citizen not found"
      | some c0 => applyStatusAndSave logWriteOk db nid (some s) userId c0 := by
  rw [updateCitizen]
  cases findActiveCitizen db nid with
  | none => rfl
  | some c0 => rfl

/-- C4: applying a status-only update to an existing non-deleted citizen
creates exactly one StatusChangeLog row — with the correct old status, new
(upper-cased) status, subject key and acting user — when the normalised new
status differs from the current one, and zero rows when it is equal. -/
theorem updateCitizen_status_transition_log (today hya : Int) (db : CitizenDb)
    (nid s : String) (userId : Nat) (c : Citizen)
    (hfind : findActiveCitizen db nid = some c) (hs : s ≠ "") :
    (toUpperStr s = c.status →
      updateCitizen true today hya db nid { status := some s } userId =
        .ok ({ db with citizens := replaceCitizen db.citizens c }, c))
    ∧ (toUpperStr s ≠ c.status → validStatus c.status = true →
        validStatus (toUpperStr s) = true →
        updateCitizen true today hya db nid { status := some s } userId =
          .ok ({ citizens := replaceCitizen db.citizens { c with status := toUpperStr s },
                 logs := db.logs ++
                   [{ nationalId := nid, oldStatus := c.status,
                      newStatus := toUpperStr s, changedBy := userId }] },
               { c with status := toUpperStr s })) := by
  have ht : isTruthy (some s) = true := by
    simp [isTruthy, hs]
  constructor
  · intro heq
    simp only [updateCitizen_status_only, hfind]
    simp only [applyStatusAndSave, ht, if_true, Option.getD_some]
    rw [if_pos (beq_iff_eq.mpr heq.symm)]
    rw [heq]
  · intro hne hv1 hv2
    have hcond : ¬((c.status == toUpperStr s) = true) := by
      rw [beq_iff_eq]
      exact fun h2 => hne h2.symm
    simp only [updateCitizen_status_only, hfind]
    simp only [applyStatusAndSave, ht, if_true, Option.getD_some]
    rw [if_neg hcond]
    have hl : logCreate true db.logs
        { nationalId := nid, oldStatus := c.status, newStatus := toUpperStr s,
          changedBy := userId } = .ok (db.logs ++
          [{ nationalId := nid, oldStatus := c.status, newStatus := toUpperStr s,
             changedBy := userId }]) := by
      rw [logCreate]
      simp [hv1, hv2]
    simp only [hl]

/-- C4 witness: re-submitting the current status creates zero log rows; a
lower-case "deceased" is normalised and creates exactly one row with the
correct old status, new status, subject key and actor. -/
theorem updateCitizen_status_transition_log_witness :
    updateCitizen true 100 (-100) { citizens := [cActive], logs := [] } "1234567890"
        { status := some "ACTIVE" } 1 =
      .ok ({ citizens := [cActive], logs := [] }, cActive)
    ∧ updateCitizen true 100 (-100) { citizens := [cActive], logs := [] } "1234567890"
        { status := some "deceased" } 1 =
      .ok ({ citizens := [cDeceased], logs := [rowDeceased] }, cDeceased) :=
  ⟨(updateCitizen_status_transition_log 100 (-100) { citizens := [cActive], logs := [] }
      "1234567890" "ACTIVE" 1 cActive rfl (by decide)).1 (by decide),
    (updateCitizen_status_transition_log 100 (-100) { citizens := [cActive], logs := [] }
      "1234567890" "deceased" 1 cActive rfl (by decide)).2 (by decide) (by decide) (by decide)⟩

/-- C10: in a store in which "alice" is held only by a soft-deleted user,
the service-level duplicate check (scoped to `deletedAt: null`) finds no
conflict — matching the service's own comment that deleted users are
excluded — yet `createUser` still fails, because the user schema's
`unique: true` index on `username` spans soft-deleted documents and rejects
the insert with a duplicate-key error instead of allowing the reuse. -/
theorem createUser_trashed_username_duplicate :
    uTrashedAlice.username = "alice"
    ∧ uTrashedAlice.deletedAt ≠ none
    ∧ (dbTrashedAlice.users.filter
        (fun u => u.username == "alice" && u.deletedAt == none)) = []
    ∧ createUser 50 9 dbTrashedAlice
        { username := some "alice", password := some "secret1", role_id := some 10 } =
      .error "E11000 duplicate key error: username" :=
  ⟨rfl, by decide, rfl, rfl⟩
